import Mathlib

/-!
Verification of the Gridiron Analytics tendency-computation pipeline.

The repository consists of a React Native frontend (under `app/`) and a
Python backend (ETL script `backend/etl/build_team_tendencies.py` plus the
FastAPI routes in `backend/main.py`).  The frontend sources are available
here; the backend pipeline itself (Play Record Normalizer, Situational
Classifier, Team-Down Aggregator, the two league calculators and the
Exporter) is not, so those components are modelled from the specification
and every definition doing so carries a doc comment starting with
`Modelled from the spec:`.  The frontend screens
(`app/(tabs)/index.tsx`, `app/team/[team].tsx`) are embedded from their
TypeScript source.

Rates are embedded as rational numbers (`ℚ`); the JavaScript/Python
floating-point values are exact binary fractions of these same ratios, and
every claim under test is stated up to exact rational arithmetic.
Team codes are strings; string comparison is embedded as the lexicographic
order `codeLt` on the underlying character codes, which agrees with the
JavaScript and Python string orders on the ASCII team abbreviations.
-/

/-- Play classification produced by the Normalizer (spec §3): rush, pass, or
other (kneel, spike, penalty-only). -/
inductive PlayType where
  | rush
  | pass
  | other
deriving DecidableEq

/-- Modelled from the spec: the canonical typed play record produced by the
Play Record Normalizer (spec §3).  `yardLine` is the field position on the
0–100 scale measured from the offense's own goal line, so the offense's own
20-yard line is 20 and the opponent's 20-yard line is 80.  `scoreDiff` is
offense minus defense at the snap. -/
structure PlayRecord where
  season : Nat
  team : String
  down : Nat
  ptype : PlayType
  ydsToGo : Nat
  yardLine : Nat
  scoreDiff : Int
  isPunt : Bool
  isFieldGoalAttempt : Bool
deriving DecidableEq

/-- Modelled from the spec: the is-go-for-it flag, "not punt/field-goal-attempt"
(spec §3, §4.4 step 1). -/
def PlayRecord.isGoForIt (p : PlayRecord) : Bool :=
  !p.isPunt && !p.isFieldGoalAttempt

/-- Modelled from the spec: the Situational Classifier's `fourthShortMidfield`
bucket (spec §3, §4.2): down 4, yards-to-go in [1,3], field position strictly
between the two 20-yard lines (open interval: exactly on a 20 does not
qualify). -/
def fourthShortMidfield (p : PlayRecord) : Bool :=
  decide (p.down = 4 ∧ 1 ≤ p.ydsToGo ∧ p.ydsToGo ≤ 3 ∧
    20 < p.yardLine ∧ p.yardLine < 80)

/-- Modelled from the spec: the Situational Classifier's `neutralEarlyDown`
bucket (spec §3, §4.2): down 1 or 2, yards-to-go in [7,10], field position
strictly between the 20s, absolute score differential at most 7. -/
def neutralEarlyDown (p : PlayRecord) : Bool :=
  decide ((p.down = 1 ∨ p.down = 2) ∧ 7 ≤ p.ydsToGo ∧ p.ydsToGo ≤ 10 ∧
    20 < p.yardLine ∧ p.yardLine < 80 ∧ p.scoreDiff.natAbs ≤ 7)

/-- Modelled from the spec: the 32 known team abbreviations (spec §3
invariant "offensive team code is one of 32 known abbreviations"), using the
nflverse codes the data source supplies. -/
def knownTeams : List String :=
  ["ARI", "ATL", "BAL", "BUF", "CAR", "CHI", "CIN", "CLE",
   "DAL", "DEN", "DET", "GB", "HOU", "IND", "JAX", "KC",
   "LA", "LAC", "LV", "MIA", "MIN", "NE", "NO", "NYG",
   "NYJ", "PHI", "PIT", "SEA", "SF", "TB", "TEN", "WAS"]

/-- Modelled from the spec: classification of the raw play-type string into
rush / pass / other; strings that cannot be classified yield `none`
(spec §4.1). -/
def classifyPlayType (s : String) : Option PlayType :=
  if s = "run" ∨ s = "rush" then some PlayType.rush
  else if s = "pass" then some PlayType.pass
  else if s = "punt" ∨ s = "field_goal" ∨ s = "qb_kneel" ∨ s = "qb_spike" ∨
      s = "no_play" then some PlayType.other
  else none

/-- Modelled from the spec: one loosely-typed raw row delivered by the Data
Source (spec §4.1).  The fields the Normalizer validates are optional; the
remaining fields are carried through. -/
structure RawRow where
  season : Nat
  posteam : Option String
  down : Option Nat
  playTypeRaw : Option String
  ydsToGo : Nat
  yardLine : Nat
  scoreDiff : Int
  isPunt : Bool
  isFieldGoalAttempt : Bool

/-- Modelled from the spec: the Play Record Normalizer on one raw row
(spec §4.1).  Returns `none` (a dropped-row signal) when the offensive team
code is missing or unrecognized, the down is missing or not in {1,2,3,4}, or
the play type cannot be classified; otherwise the canonical record. -/
def normalizeRow (r : RawRow) : Option PlayRecord :=
  match r.posteam with
  | none => none
  | some t =>
    if t ∈ knownTeams then
      match r.down with
      | none => none
      | some d =>
        if 1 ≤ d ∧ d ≤ 4 then
          match r.playTypeRaw with
          | none => none
          | some s =>
            match classifyPlayType s with
            | none => none
            | some pt =>
              some ⟨r.season, t, d, pt, r.ydsToGo, r.yardLine, r.scoreDiff,
                r.isPunt, r.isFieldGoalAttempt⟩
        else none
    else none

/-- Modelled from the spec: the Normalizer over a whole snapshot — the kept
records in input order together with the dropped-row counter (spec §4.1,
§9: a per-run locally-scoped accumulator). -/
def normalizeAll (rows : List RawRow) : List PlayRecord × Nat :=
  (rows.filterMap normalizeRow,
   rows.countP (fun r => (normalizeRow r).isNone))

/-- Lexicographic comparison of character lists by character code, embedding
the string order used by the JavaScript `sort()` and Python `sorted()` on
ASCII team codes. -/
def charsLt : List Char → List Char → Bool
  | [], [] => false
  | [], _ :: _ => true
  | _ :: _, [] => false
  | a :: as, b :: bs =>
    if a < b then true else if b < a then false else charsLt as bs

/-- Lexicographic order on team-code strings. -/
def codeLt (a b : String) : Bool :=
  charsLt a.data b.data

/-- Sorted duplicate-free insertion for team codes, used to enumerate the
distinct team codes of a play stream in ascending order. -/
def insortNodup (a : String) : List String → List String
  | [] => [a]
  | b :: l =>
    if codeLt a b then a :: b :: l
    else if a = b then b :: l
    else b :: insortNodup a l

/-- The distinct strings of a list, in ascending `codeLt` order. -/
def sortedDedup (l : List String) : List String :=
  l.foldr insortNodup []

/-- Stable descending insertion by a rational key: the inserted element goes
before the first element whose key is not larger, so earlier elements win
ties.  This embeds the stable sorts used for the exports (a stable sort by
descending metric applied to rows generated in ascending team-code order,
spec §4.4 step 5 / §4.5). -/
def insDescBy (key : α → ℚ) (x : α) : List α → List α
  | [] => [x]
  | y :: l => if key y ≤ key x then x :: y :: l else y :: insDescBy key x l

/-- Stable insertion sort by descending rational key. -/
def sortDescBy (key : α → ℚ) : List α → List α
  | [] => []
  | x :: l => insDescBy key x (sortDescBy key l)

/-- The export order: strictly larger key first, ties in ascending team-code
order. -/
def exportOrd (key : α → ℚ) (tag : α → String) (a b : α) : Prop :=
  key b < key a ∨ (key a = key b ∧ codeLt (tag a) (tag b) = true)

/-- Modelled from the spec: the Team-Down Aggregator's input restriction to
offensive (rush/pass) plays; "other" play types are excluded from rate
denominators (spec §3, §4.3). -/
def offensivePlays (ps : List PlayRecord) : List PlayRecord :=
  ps.filter (fun p => decide (p.ptype = PlayType.rush ∨ p.ptype = PlayType.pass))

/-- Modelled from the spec: one `TeamDownTendency` record (spec §3). -/
structure TeamDownTendency where
  team : String
  down : Nat
  rush_rate : ℚ
  pass_rate : ℚ
deriving DecidableEq

/-- The qualifying offensive plays of one (team, down) group (spec §4.3). -/
def teamDownGroup (ps : List PlayRecord) (t : String) (d : Nat) :
    List PlayRecord :=
  (offensivePlays ps).filter (fun p => decide (p.team = t ∧ p.down = d))

/-- Modelled from the spec: the Team-Down Aggregator's record for one
(team, down) pair — `none` (omitted, never fabricated as 0/0) when the group
has no qualifying play (spec §4.3). -/
def tendencyFor (ps : List PlayRecord) (t : String) (d : Nat) :
    Option TeamDownTendency :=
  let grp := teamDownGroup ps t d
  if grp.length = 0 then none
  else some ⟨t, d,
    ((grp.countP (fun p => decide (p.ptype = PlayType.rush)) : ℚ) / (grp.length : ℚ)),
    ((grp.countP (fun p => decide (p.ptype = PlayType.pass)) : ℚ) / (grp.length : ℚ))⟩

/-- Modelled from the spec: the Team-Down Aggregator's full output — one
record per (team, down) pair observed in the data, teams in ascending
code order, downs 1–4 in order (spec §4.3, §6). -/
def teamDownTendencies (ps : List PlayRecord) : List TeamDownTendency :=
  (sortedDedup ((offensivePlays ps).map PlayRecord.team)).flatMap
    (fun t => [1, 2, 3, 4].filterMap (tendencyFor ps t))

/-- Modelled from the spec: one `FourthDownAggression` export row (spec §3). -/
structure FourthDownAggression where
  team : String
  attempts : Nat
  go_for_it : Nat
  go_rate : ℚ
  league_go_rate : ℚ
  aggression_index : ℚ
deriving DecidableEq

/-- The fourth-short-midfield qualifying plays (spec §4.4 input). -/
def fourthQualifying (ps : List PlayRecord) : List PlayRecord :=
  ps.filter fourthShortMidfield

/-- Modelled from the spec: league totals are summed across all teams first,
then divided — a single play-weighted ratio (spec §4.4 step 2). -/
def leagueGoRate (ps : List PlayRecord) : ℚ :=
  (((fourthQualifying ps).countP PlayRecord.isGoForIt : ℚ)) /
    (((fourthQualifying ps).length : ℚ))

/-- Modelled from the spec: the per-team fourth-down row; teams with zero
attempts are excluded entirely (spec §4.4 steps 1, 3, 4). -/
def fourthRowFor (ps : List PlayRecord) (t : String) :
    Option FourthDownAggression :=
  let qual := (fourthQualifying ps).filter (fun p => decide (p.team = t))
  if qual.length = 0 then none
  else
    some ⟨t, qual.length, qual.countP PlayRecord.isGoForIt,
      ((qual.countP PlayRecord.isGoForIt : ℚ) / (qual.length : ℚ)),
      leagueGoRate ps,
      ((qual.countP PlayRecord.isGoForIt : ℚ) / (qual.length : ℚ)) - leagueGoRate ps⟩

/-- Modelled from the spec: the 4th-Down Aggression Calculator's export —
rows generated in ascending team-code order, then stably sorted by
descending aggression index (spec §4.4). -/
def fourthDownAggression (ps : List PlayRecord) : List FourthDownAggression :=
  sortDescBy (fun r => r.aggression_index)
    ((sortedDedup ((fourthQualifying ps).map PlayRecord.team)).filterMap
      (fourthRowFor ps))

/-- Modelled from the spec: one `NeutralEarlyDownPassRate` export row
(spec §3). -/
structure NeutralEarlyDownPassRate where
  team : String
  plays : Nat
  pass_plays : Nat
  pass_rate : ℚ
  league_pass_rate : ℚ
  pass_rate_over_avg : ℚ
deriving DecidableEq

/-- The neutral-early-down qualifying plays (spec §4.5 input). -/
def neutralQualifying (ps : List PlayRecord) : List PlayRecord :=
  ps.filter neutralEarlyDown

/-- Whether a play is a pass play. -/
def isPassPlay (p : PlayRecord) : Bool :=
  decide (p.ptype = PlayType.pass)

/-- Modelled from the spec: the play-weighted league-wide pass rate over the
neutral-early-down bucket (spec §4.5). -/
def leaguePassRate (ps : List PlayRecord) : ℚ :=
  (((neutralQualifying ps).countP isPassPlay : ℚ)) /
    (((neutralQualifying ps).length : ℚ))

/-- Modelled from the spec: the per-team neutral-early-down row; teams with
zero qualifying plays are excluded entirely (spec §4.5). -/
def earlyRowFor (ps : List PlayRecord) (t : String) :
    Option NeutralEarlyDownPassRate :=
  let qual := (neutralQualifying ps).filter (fun p => decide (p.team = t))
  if qual.length = 0 then none
  else
    some ⟨t, qual.length, qual.countP isPassPlay,
      ((qual.countP isPassPlay : ℚ) / (qual.length : ℚ)),
      leaguePassRate ps,
      ((qual.countP isPassPlay : ℚ) / (qual.length : ℚ)) - leaguePassRate ps⟩

/-- Modelled from the spec: the Neutral Early-Down Pass Rate Calculator's
export — rows generated in ascending team-code order, then stably sorted by
descending pass-rate-over-average (spec §4.5). -/
def neutralEarlyDownPassRate (ps : List PlayRecord) :
    List NeutralEarlyDownPassRate :=
  sortDescBy (fun r => r.pass_rate_over_avg)
    ((sortedDedup ((neutralQualifying ps).map PlayRecord.team)).filterMap
      (earlyRowFor ps))

/-- Modelled from the spec: the team-list export — the set of team codes
with at least one tendency record, ascending alphabetical (spec §6). -/
def teamList (ps : List PlayRecord) : List String :=
  sortedDedup ((teamDownTendencies ps).map TeamDownTendency.team)

/-- Modelled from the spec: the full exported artifact assembled by the
Result Assembler/Exporter, together with the dropped-row diagnostic
(spec §4.6, §6). -/
structure Artifact where
  tendencies : List TeamDownTendency
  fourthDown : List FourthDownAggression
  earlyDown : List NeutralEarlyDownPassRate
  teams : List String
  droppedRows : Nat
deriving DecidableEq

/-- Modelled from the spec: one full pipeline run from the raw snapshot to
the exported artifact (spec §2, components 1–6). -/
def runPipeline (rows : List RawRow) : Artifact :=
  ⟨teamDownTendencies (normalizeAll rows).1,
   fourthDownAggression (normalizeAll rows).1,
   neutralEarlyDownPassRate (normalizeAll rows).1,
   teamList (normalizeAll rows).1,
   (normalizeAll rows).2⟩

/-- The alternative, rejected reading of "league average": the unweighted
mean of the per-team go rates.  Defined from the spec's words in §4.4
step 2 ("not the mean of per-team rates") solely to be contrasted with the
play-weighted `leagueGoRate`. -/
def teamMeanGoRate (ps : List PlayRecord) : ℚ :=
  (((sortedDedup ((fourthQualifying ps).map PlayRecord.team)).map
    (fun t =>
      (((fourthQualifying ps).filter (fun p => decide (p.team = t))).countP
          PlayRecord.isGoForIt : ℚ) /
        (((fourthQualifying ps).filter (fun p => decide (p.team = t))).length : ℚ))).sum) /
    ((sortedDedup ((fourthQualifying ps).map PlayRecord.team)).length : ℚ)

/-- A 4th-and-short play between the 20s (down 4, 2 yards to go, midfield);
a punt when `punt` is set, otherwise a go-for-it rush. -/
def mkFourthPlay (t : String) (punt : Bool) : PlayRecord :=
  ⟨2024, t, 4, PlayType.rush, 2, 50, 0, punt, false⟩

/-- The spec §8 fixture: team "AAA" with 4 qualifying 4th-and-short attempts
(3 go-for-it, 1 punt) and team "BBB" with 2 attempts (both punts). -/
def fixtureFourth : List PlayRecord :=
  [mkFourthPlay "AAA" false, mkFourthPlay "AAA" false, mkFourthPlay "AAA" false,
   mkFourthPlay "AAA" true, mkFourthPlay "BBB" true, mkFourthPlay "BBB" true]

/-- An offensive play for team `t` on down `d` (10 to go at midfield, tied
score), so first-down plays also qualify for the neutral-early-down bucket. -/
def mkDownPlay (t : String) (d : Nat) (pt : PlayType) : PlayRecord :=
  ⟨2024, t, d, pt, 10, 50, 0, false, false⟩

/-- The spec §8 fixture: three synthetic plays for team "AAA" on down 1 —
two rushes and one pass. -/
def fixtureTend : List PlayRecord :=
  [mkDownPlay "AAA" 1 PlayType.rush, mkDownPlay "AAA" 1 PlayType.rush,
   mkDownPlay "AAA" 1 PlayType.pass]

/-- A raw row with down 5, used to exercise the Normalizer's down check. -/
def badDownRow : RawRow :=
  ⟨2024, some "KC", some 5, some "run", 1, 50, 0, false, false⟩

/-- A raw row with an unrecognized team code. -/
def badTeamRow : RawRow :=
  ⟨2024, some "ZZZ", some 1, some "run", 10, 50, 0, false, false⟩

/-- A valid raw row for Kansas City. -/
def rawKC : RawRow :=
  ⟨2024, some "KC", some 1, some "run", 10, 50, 0, false, false⟩

/-- A valid raw row for Green Bay. -/
def rawGB : RawRow :=
  ⟨2024, some "GB", some 1, some "pass", 8, 44, 3, false, false⟩

/-- Embeds the ASCII case mapping performed by JavaScript
`String.prototype.toUpperCase` on the team-code route parameter
(`app/team/[team].tsx` line 68); team codes are ASCII strings. -/
def asciiUpperChar (c : Char) : Char :=
  if 97 ≤ c.toNat ∧ c.toNat ≤ 122 then Char.ofNat (c.toNat - 32) else c

/-- ASCII uppercase on a whole string. -/
def asciiUpper (s : String) : String :=
  String.mk (s.data.map asciiUpperChar)

/-- Embeds `const teamCode = (params.team || "").toUpperCase();`
(`app/team/[team].tsx` lines 66–68): the team route parameter normalized to
uppercase, with the empty string when the parameter is absent (in
JavaScript both `undefined` and `""` are falsy, and uppercasing `""` is
`""`). -/
def teamCode (param : Option String) : String :=
  asciiUpper (param.getD "")

/-- Embeds the guarded metric fetch of `TeamScreen`'s first effect
(`app/team/[team].tsx` lines 81–93): `if (!teamCode) return;` issues no
request when the normalized code is empty; otherwise the three GET paths,
the first parameterized by the team code. -/
def metricRequests (param : Option String) : List String :=
  if teamCode param = "" then []
  else ["/teams/" ++ teamCode param ++ "/tendencies",
        "/league/fourth_down_aggression",
        "/league/neutral_early_down_pass_rate"]

/-- Embeds the guarded summary fetch of `TeamScreen`'s second effect
(`app/team/[team].tsx` lines 127–150). -/
def summaryRequests (param : Option String) : List String :=
  if teamCode param = "" then []
  else ["/teams/" ++ teamCode param ++ "/summary"]

theorem charsLt_irrefl : ∀ l : List Char, charsLt l l = false := by
  intro l
  induction l with
  | nil => rfl
  | cons a as ih => simp [charsLt, lt_irrefl, ih]

theorem charsLt_trans : ∀ {l₁ l₂ l₃ : List Char},
    charsLt l₁ l₂ = true → charsLt l₂ l₃ = true → charsLt l₁ l₃ = true := by
  intro l₁
  induction l₁ with
  | nil =>
    intro l₂ l₃ h₁ h₂
    cases l₂ with
    | nil => simp [charsLt] at h₁
    | cons b bs =>
      cases l₃ with
      | nil => simp [charsLt] at h₂
      | cons c cs => simp [charsLt]
  | cons a as ih =>
    intro l₂ l₃ h₁ h₂
    cases l₂ with
    | nil => simp [charsLt] at h₁
    | cons b bs =>
      cases l₃ with
      | nil => simp [charsLt] at h₂
      | cons c cs =>
        simp only [charsLt] at h₁ h₂ ⊢
        by_cases hab : a < b
        · by_cases hbc : b < c
          · simp [lt_trans hab hbc]
          · by_cases hcb : c < b
            · simp [hbc, hcb] at h₂
            · have hbceq : b = c := le_antisymm (not_lt.mp hcb) (not_lt.mp hbc)
              subst hbceq
              simp [hab]
        · by_cases hba : b < a
          · simp [hab, hba] at h₁
          · have habeq : a = b := le_antisymm (not_lt.mp hba) (not_lt.mp hab)
            subst habeq
            simp only [hab, if_neg, ite_self, if_false] at h₁
            by_cases hac : a < c
            · simp [hac]
            · by_cases hca : c < a
              · simp [hac, hca] at h₂
              · have haceq : a = c := le_antisymm (not_lt.mp hca) (not_lt.mp hac)
                subst haceq
                simp only [hac, lt_irrefl, if_false] at h₂ ⊢
                exact ih h₁ h₂

theorem charsLt_eq_of_both_false : ∀ {l₁ l₂ : List Char},
    charsLt l₁ l₂ = false → charsLt l₂ l₁ = false → l₁ = l₂ := by
  intro l₁
  induction l₁ with
  | nil =>
    intro l₂ h₁ _
    cases l₂ with
    | nil => rfl
    | cons b bs => simp [charsLt] at h₁
  | cons a as ih =>
    intro l₂ h₁ h₂
    cases l₂ with
    | nil => simp [charsLt] at h₂
    | cons b bs =>
      simp only [charsLt] at h₁ h₂
      by_cases hab : a < b
      · simp [hab] at h₁
      · by_cases hba : b < a
        · simp [hab, hba] at h₂
        · have habeq : a = b := le_antisymm (not_lt.mp hba) (not_lt.mp hab)
          subst habeq
          simp only [lt_irrefl, if_false] at h₁ h₂
          rw [ih h₁ h₂]

theorem string_eq_of_data_eq {a b : String} (h : a.data = b.data) : a = b := by
  cases a
  cases b
  exact congrArg String.mk h

theorem codeLt_irrefl (a : String) : codeLt a a = false :=
  charsLt_irrefl a.data

theorem codeLt_trans {a b c : String} (h₁ : codeLt a b = true)
    (h₂ : codeLt b c = true) : codeLt a c = true :=
  charsLt_trans h₁ h₂

theorem codeLt_asymm {a b : String} (h : codeLt a b = true) :
    codeLt b a = false := by
  cases hba : codeLt b a with
  | false => rfl
  | true =>
    have h2 : (false : Bool) = true := by
      rw [← codeLt_irrefl a]
      exact codeLt_trans h hba
    cases h2

theorem eq_of_codeLt_both_false {a b : String} (h₁ : codeLt a b = false)
    (h₂ : codeLt b a = false) : a = b :=
  string_eq_of_data_eq (charsLt_eq_of_both_false h₁ h₂)

theorem codeLt_total {a b : String} (h₁ : ¬ codeLt a b = true) (h₂ : a ≠ b) :
    codeLt b a = true := by
  cases hab : codeLt a b with
  | true => exact absurd hab h₁
  | false =>
    cases hba : codeLt b a with
    | true => rfl
    | false => exact absurd (eq_of_codeLt_both_false hab hba) h₂

theorem mem_insortNodup {x a : String} : ∀ {l : List String},
    x ∈ insortNodup a l ↔ x = a ∨ x ∈ l := by
  intro l
  induction l with
  | nil => simp [insortNodup]
  | cons b l ih =>
    simp only [insortNodup]
    by_cases hab : codeLt a b = true
    · rw [if_pos hab]
      simp only [List.mem_cons]
    · rw [if_neg hab]
      by_cases heq : a = b
      · rw [if_pos heq]
        subst heq
        simp only [List.mem_cons]
        tauto
      · rw [if_neg heq]
        simp only [List.mem_cons, ih]
        tauto

theorem pairwise_insortNodup {a : String} : ∀ {l : List String},
    l.Pairwise (fun x y => codeLt x y = true) →
    (insortNodup a l).Pairwise (fun x y => codeLt x y = true) := by
  intro l
  induction l with
  | nil =>
    intro _
    simp [insortNodup]
  | cons b l ih =>
    intro hp
    rcases List.pairwise_cons.mp hp with ⟨hb, hl⟩
    simp only [insortNodup]
    by_cases hab : codeLt a b = true
    · rw [if_pos hab]
      refine List.pairwise_cons.mpr ⟨?_, hp⟩
      intro y hy
      rcases List.mem_cons.mp hy with h | h
      · subst h
        exact hab
      · exact codeLt_trans hab (hb y h)
    · rw [if_neg hab]
      by_cases heq : a = b
      · rw [if_pos heq]
        subst heq
        exact hp
      · rw [if_neg heq]
        refine List.pairwise_cons.mpr ⟨?_, ih hl⟩
        intro y hy
        rcases mem_insortNodup.mp hy with h | h
        · subst h
          exact codeLt_total hab heq
        · exact hb y h

theorem mem_sortedDedup {x : String} : ∀ {l : List String},
    x ∈ sortedDedup l ↔ x ∈ l := by
  intro l
  induction l with
  | nil => simp [sortedDedup]
  | cons a l ih =>
    show x ∈ insortNodup a (sortedDedup l) ↔ _
    rw [mem_insortNodup]
    simp [ih]

theorem pairwise_sortedDedup : ∀ l : List String,
    (sortedDedup l).Pairwise (fun x y => codeLt x y = true) := by
  intro l
  induction l with
  | nil => simp [sortedDedup]
  | cons a l ih => exact pairwise_insortNodup ih

theorem sorted_eq_of_mem_iff : ∀ {l₁ l₂ : List String},
    l₁.Pairwise (fun x y => codeLt x y = true) →
    l₂.Pairwise (fun x y => codeLt x y = true) →
    (∀ x, x ∈ l₁ ↔ x ∈ l₂) → l₁ = l₂ := by
  intro l₁
  induction l₁ with
  | nil =>
    intro l₂ _ _ hm
    cases l₂ with
    | nil => rfl
    | cons b l₂ =>
      have : b ∈ ([] : List String) := (hm b).mpr (List.mem_cons_self b l₂)
      cases this
  | cons a l₁ ih =>
    intro l₂ h₁ h₂ hm
    cases l₂ with
    | nil =>
      have : a ∈ ([] : List String) := (hm a).mp (List.mem_cons_self a l₁)
      cases this
    | cons b l₂ =>
      rcases List.pairwise_cons.mp h₁ with ⟨ha, h₁'⟩
      rcases List.pairwise_cons.mp h₂ with ⟨hb, h₂'⟩
      have hab : a = b := by
        have haIn : a ∈ b :: l₂ := (hm a).mp (List.mem_cons_self a l₁)
        have hbIn : b ∈ a :: l₁ := (hm b).mpr (List.mem_cons_self b l₂)
        rcases List.mem_cons.mp haIn with h | h
        · exact h
        · rcases List.mem_cons.mp hbIn with h' | h'
          · exact h'.symm
          · have h1 : codeLt b a = true := hb a h
            have h2 : codeLt a b = true := ha b h'
            have : (false : Bool) = true := by
              rw [← codeLt_irrefl a]
              exact codeLt_trans h2 h1
            cases this
      subst hab
      have htail : ∀ x, x ∈ l₁ ↔ x ∈ l₂ := by
        intro x
        constructor
        · intro hx
          have hax : codeLt a x = true := ha x hx
          have : x ∈ a :: l₂ := (hm x).mp (List.mem_cons_of_mem a hx)
          rcases List.mem_cons.mp this with h | h
          · subst h
            rw [codeLt_irrefl] at hax
            cases hax
          · exact h
        · intro hx
          have hax : codeLt a x = true := hb x hx
          have : x ∈ a :: l₁ := (hm x).mpr (List.mem_cons_of_mem a hx)
          rcases List.mem_cons.mp this with h | h
          · subst h
            rw [codeLt_irrefl] at hax
            cases hax
          · exact h
      rw [ih h₁' h₂' htail]

theorem mem_insDescBy {key : α → ℚ} {x z : α} : ∀ {l : List α},
    z ∈ insDescBy key x l ↔ z = x ∨ z ∈ l := by
  intro l
  induction l with
  | nil => simp [insDescBy]
  | cons y l ih =>
    simp only [insDescBy]
    by_cases h : key y ≤ key x
    · rw [if_pos h]
      simp only [List.mem_cons]
    · rw [if_neg h]
      simp only [List.mem_cons, ih]
      tauto

theorem mem_sortDescBy {key : α → ℚ} {z : α} : ∀ {l : List α},
    z ∈ sortDescBy key l ↔ z ∈ l := by
  intro l
  induction l with
  | nil => simp [sortDescBy]
  | cons x l ih =>
    simp only [sortDescBy, mem_insDescBy, List.mem_cons, ih]

theorem pairwise_insDescBy {key : α → ℚ} {tag : α → String} {x : α} :
    ∀ {l : List α}, l.Pairwise (exportOrd key tag) →
    (∀ y ∈ l, codeLt (tag x) (tag y) = true) →
    (insDescBy key x l).Pairwise (exportOrd key tag) := by
  intro l
  induction l with
  | nil =>
    intro _ _
    simp [insDescBy]
  | cons y l ih =>
    intro hp hx
    rcases List.pairwise_cons.mp hp with ⟨hy, hl⟩
    simp only [insDescBy]
    by_cases h : key y ≤ key x
    · rw [if_pos h]
      refine List.pairwise_cons.mpr ⟨?_, hp⟩
      intro z hz
      have hzy : key z ≤ key y := by
        rcases List.mem_cons.mp hz with hz' | hz'
        · subst hz'
          exact le_refl _
        · rcases hy z hz' with h' | h'
          · exact le_of_lt h'
          · exact le_of_eq h'.1.symm
      rcases lt_or_eq_of_le (le_trans hzy h) with h' | h'
      · exact Or.inl h'
      · exact Or.inr ⟨h'.symm, hx z hz⟩
    · rw [if_neg h]
      refine List.pairwise_cons.mpr ⟨?_, ih hl (fun z hz => hx z (List.mem_cons_of_mem y hz))⟩
      intro z hz
      rcases mem_insDescBy.mp hz with hz' | hz'
      · subst hz'
        exact Or.inl (lt_of_not_le h)
      · exact hy z hz'

theorem pairwise_sortDescBy {key : α → ℚ} {tag : α → String} :
    ∀ {l : List α}, l.Pairwise (fun a b => codeLt (tag a) (tag b) = true) →
    (sortDescBy key l).Pairwise (exportOrd key tag) := by
  intro l
  induction l with
  | nil =>
    intro _
    simp [sortDescBy]
  | cons x l ih =>
    intro hp
    rcases List.pairwise_cons.mp hp with ⟨hx, hl⟩
    exact pairwise_insDescBy (ih hl)
      (fun y hy => hx y (mem_sortDescBy.mp hy))

theorem sortedDedup_nodup (l : List String) : (sortedDedup l).Nodup :=
  (pairwise_sortedDedup l).imp (fun h heq => by
    subst heq
    rw [codeLt_irrefl] at h
    cases h)

theorem fourthRowFor_some {ps : List PlayRecord} {t : String}
    {r : FourthDownAggression} (h : fourthRowFor ps t = some r) :
    r.team = t ∧
    r.attempts = ((fourthQualifying ps).filter (fun p => decide (p.team = t))).length ∧
    0 < r.attempts ∧
    r.go_for_it = ((fourthQualifying ps).filter (fun p => decide (p.team = t))).countP PlayRecord.isGoForIt ∧
    r.go_rate = (r.go_for_it : ℚ) / (r.attempts : ℚ) ∧
    r.league_go_rate = leagueGoRate ps ∧
    r.aggression_index = r.go_rate - r.league_go_rate := by
  by_cases h0 : ((fourthQualifying ps).filter (fun p => decide (p.team = t))).length = 0
  · rw [fourthRowFor, if_pos h0] at h
    cases h
  · rw [fourthRowFor, if_neg h0] at h
    rcases Option.some.injEq .. ▸ h with rfl
    refine ⟨rfl, rfl, Nat.pos_of_ne_zero h0, rfl, rfl, rfl, rfl⟩

theorem earlyRowFor_some {ps : List PlayRecord} {t : String}
    {r : NeutralEarlyDownPassRate} (h : earlyRowFor ps t = some r) :
    r.team = t ∧
    r.plays = ((neutralQualifying ps).filter (fun p => decide (p.team = t))).length ∧
    0 < r.plays ∧
    r.pass_plays = ((neutralQualifying ps).filter (fun p => decide (p.team = t))).countP isPassPlay ∧
    r.pass_rate = (r.pass_plays : ℚ) / (r.plays : ℚ) ∧
    r.league_pass_rate = leaguePassRate ps ∧
    r.pass_rate_over_avg = r.pass_rate - r.league_pass_rate := by
  by_cases h0 : ((neutralQualifying ps).filter (fun p => decide (p.team = t))).length = 0
  · rw [earlyRowFor, if_pos h0] at h
    cases h
  · rw [earlyRowFor, if_neg h0] at h
    rcases Option.some.injEq .. ▸ h with rfl
    refine ⟨rfl, rfl, Nat.pos_of_ne_zero h0, rfl, rfl, rfl, rfl⟩

theorem tendencyFor_some {ps : List PlayRecord} {t : String} {d : Nat}
    {row : TeamDownTendency} (h : tendencyFor ps t d = some row) :
    row.team = t ∧ row.down = d ∧
    0 < (teamDownGroup ps t d).length ∧
    row.rush_rate = ((teamDownGroup ps t d).countP (fun p => decide (p.ptype = PlayType.rush)) : ℚ) /
      ((teamDownGroup ps t d).length : ℚ) ∧
    row.pass_rate = ((teamDownGroup ps t d).countP (fun p => decide (p.ptype = PlayType.pass)) : ℚ) /
      ((teamDownGroup ps t d).length : ℚ) := by
  by_cases h0 : (teamDownGroup ps t d).length = 0
  · rw [tendencyFor, if_pos h0] at h
    cases h
  · rw [tendencyFor, if_neg h0] at h
    rcases Option.some.injEq .. ▸ h with rfl
    refine ⟨rfl, rfl, Nat.pos_of_ne_zero h0, rfl, rfl⟩

theorem mem_fourthDownAggression {ps : List PlayRecord}
    {r : FourthDownAggression} :
    r ∈ fourthDownAggression ps ↔
    ∃ t ∈ sortedDedup ((fourthQualifying ps).map PlayRecord.team),
      fourthRowFor ps t = some r := by
  rw [fourthDownAggression, mem_sortDescBy, List.mem_filterMap]

theorem mem_neutralEarlyDownPassRate {ps : List PlayRecord}
    {r : NeutralEarlyDownPassRate} :
    r ∈ neutralEarlyDownPassRate ps ↔
    ∃ t ∈ sortedDedup ((neutralQualifying ps).map PlayRecord.team),
      earlyRowFor ps t = some r := by
  rw [neutralEarlyDownPassRate, mem_sortDescBy, List.mem_filterMap]

theorem mem_teamDownTendencies {ps : List PlayRecord}
    {row : TeamDownTendency} :
    row ∈ teamDownTendencies ps ↔
    ∃ t ∈ sortedDedup ((offensivePlays ps).map PlayRecord.team),
      ∃ d ∈ [1, 2, 3, 4], tendencyFor ps t d = some row := by
  rw [teamDownTendencies, List.mem_flatMap]
  constructor
  · rintro ⟨t, ht, hrow⟩
    rcases List.mem_filterMap.mp hrow with ⟨d, hd, hsome⟩
    exact ⟨t, ht, d, hd, hsome⟩
  · rintro ⟨t, ht, d, hd, hsome⟩
    exact ⟨t, ht, List.mem_filterMap.mpr ⟨d, hd, hsome⟩⟩

theorem countP_rush_add_countP_pass : ∀ {l : List PlayRecord},
    (∀ p ∈ l, p.ptype = PlayType.rush ∨ p.ptype = PlayType.pass) →
    l.countP (fun p => decide (p.ptype = PlayType.rush)) +
    l.countP (fun p => decide (p.ptype = PlayType.pass)) = l.length := by
  intro l
  induction l with
  | nil =>
    intro _
    rfl
  | cons p l ih =>
    intro h
    have ih' := ih (fun q hq => h q (List.mem_cons_of_mem p hq))
    rcases h p (List.mem_cons_self p l) with hp | hp
    · simp [List.countP_cons, List.length_cons, hp]
      omega
    · simp [List.countP_cons, List.length_cons, hp]
      omega

theorem sum_map_add_nat (f g : String → Nat) : ∀ T : List String,
    (T.map (fun t => f t + g t)).sum = (T.map f).sum + (T.map g).sum := by
  intro T
  induction T with
  | nil => rfl
  | cons a T ih =>
    simp only [List.map_cons, List.sum_cons, ih]
    omega

theorem sum_map_ite_eq_nat (c : Nat) : ∀ {T : List String}, T.Nodup →
    ∀ {x : String}, x ∈ T →
    (T.map (fun t => if x = t then c else 0)).sum = c := by
  intro T
  induction T with
  | nil =>
    intro _ x hx
    cases hx
  | cons a T ih =>
    intro hnd x hx
    rcases List.nodup_cons.mp hnd with ⟨ha, hnd'⟩
    simp only [List.map_cons, List.sum_cons]
    rcases List.mem_cons.mp hx with h | h
    · subst h
      rw [if_pos rfl]
      have hz : (T.map (fun t => if x = t then c else 0)).sum = 0 := by
        apply List.sum_eq_zero
        intro y hy
        rcases List.mem_map.mp hy with ⟨t, ht, rfl⟩
        rw [if_neg]
        intro hxt
        exact ha (hxt ▸ ht)
      rw [hz]
      omega
    · have hxa : ¬ x = a := by
        intro he
        exact ha (he ▸ h)
      rw [if_neg hxa, ih hnd' h]
      omega

theorem sum_countP_partition (q : PlayRecord → Bool) : ∀ (l : List PlayRecord)
    {T : List String}, T.Nodup → (∀ p ∈ l, p.team ∈ T) →
    (T.map (fun t => (l.filter (fun p => decide (p.team = t))).countP q)).sum =
      l.countP q := by
  intro l
  induction l with
  | nil =>
    intro T _ _
    simp [List.sum_eq_zero]
  | cons p l ih =>
    intro T hnd hcov
    have hpT : p.team ∈ T := hcov p (List.mem_cons_self p l)
    have hcov' : ∀ r ∈ l, r.team ∈ T :=
      fun r hr => hcov r (List.mem_cons_of_mem p hr)
    have hpt : ∀ t : String,
        ((p :: l).filter (fun r => decide (r.team = t))).countP q =
        (l.filter (fun r => decide (r.team = t))).countP q +
          (if p.team = t then (if q p then 1 else 0) else 0) := by
      intro t
      by_cases hteq : p.team = t
      · rw [List.filter_cons, if_pos (by simpa using hteq), List.countP_cons,
          if_pos hteq]
      · rw [List.filter_cons, if_neg (by simpa using hteq), if_neg hteq]
        omega
    calc (T.map (fun t => ((p :: l).filter (fun r => decide (r.team = t))).countP q)).sum
        = (T.map (fun t => (l.filter (fun r => decide (r.team = t))).countP q +
            (if p.team = t then (if q p then 1 else 0) else 0))).sum := by
          rw [List.map_congr_left (fun t _ => hpt t)]
      _ = (T.map (fun t => (l.filter (fun r => decide (r.team = t))).countP q)).sum +
            (T.map (fun t => if p.team = t then (if q p then 1 else 0) else 0)).sum := by
          rw [sum_map_add_nat]
      _ = l.countP q + (if q p then 1 else 0) := by
          rw [ih hnd hcov', sum_map_ite_eq_nat _ hnd hpT]
      _ = (p :: l).countP q := by
          rw [List.countP_cons]

theorem sortedDedup_perm_eq {l₁ l₂ : List String} (hp : l₁.Perm l₂) :
    sortedDedup l₁ = sortedDedup l₂ :=
  sorted_eq_of_mem_iff (pairwise_sortedDedup l₁) (pairwise_sortedDedup l₂)
    (fun x => by
      rw [mem_sortedDedup, mem_sortedDedup]
      exact hp.mem_iff)

theorem tendencyFor_perm {ps₁ ps₂ : List PlayRecord} (hp : ps₁.Perm ps₂)
    (t : String) (d : Nat) : tendencyFor ps₁ t d = tendencyFor ps₂ t d := by
  have hg : (teamDownGroup ps₁ t d).Perm (teamDownGroup ps₂ t d) :=
    (hp.filter _).filter _
  simp only [tendencyFor, teamDownGroup] at hg ⊢
  rw [hg.length_eq, hg.countP_eq _, hg.countP_eq _]

theorem teamDownTendencies_perm {ps₁ ps₂ : List PlayRecord}
    (hp : ps₁.Perm ps₂) : teamDownTendencies ps₁ = teamDownTendencies ps₂ := by
  have hoff : (offensivePlays ps₁).Perm (offensivePlays ps₂) := hp.filter _
  have hfun : tendencyFor ps₁ = tendencyFor ps₂ :=
    funext (fun t => funext (fun d => tendencyFor_perm hp t d))
  rw [teamDownTendencies, teamDownTendencies,
    sortedDedup_perm_eq (hoff.map PlayRecord.team), hfun]

theorem leagueGoRate_perm {ps₁ ps₂ : List PlayRecord} (hp : ps₁.Perm ps₂) :
    leagueGoRate ps₁ = leagueGoRate ps₂ := by
  have hq : (fourthQualifying ps₁).Perm (fourthQualifying ps₂) := hp.filter _
  rw [leagueGoRate, leagueGoRate, hq.length_eq, hq.countP_eq _]

theorem fourthRowFor_perm {ps₁ ps₂ : List PlayRecord} (hp : ps₁.Perm ps₂) :
    fourthRowFor ps₁ = fourthRowFor ps₂ := by
  funext t
  have hq : ((fourthQualifying ps₁).filter (fun p => decide (p.team = t))).Perm
      ((fourthQualifying ps₂).filter (fun p => decide (p.team = t))) :=
    (hp.filter _).filter _
  simp only [fourthRowFor]
  rw [hq.length_eq, hq.countP_eq _, leagueGoRate_perm hp]

theorem fourthDownAggression_perm {ps₁ ps₂ : List PlayRecord}
    (hp : ps₁.Perm ps₂) :
    fourthDownAggression ps₁ = fourthDownAggression ps₂ := by
  have hq : (fourthQualifying ps₁).Perm (fourthQualifying ps₂) := hp.filter _
  rw [fourthDownAggression, fourthDownAggression,
    sortedDedup_perm_eq (hq.map PlayRecord.team), fourthRowFor_perm hp]

theorem leaguePassRate_perm {ps₁ ps₂ : List PlayRecord} (hp : ps₁.Perm ps₂) :
    leaguePassRate ps₁ = leaguePassRate ps₂ := by
  have hq : (neutralQualifying ps₁).Perm (neutralQualifying ps₂) := hp.filter _
  rw [leaguePassRate, leaguePassRate, hq.length_eq, hq.countP_eq _]

theorem earlyRowFor_perm {ps₁ ps₂ : List PlayRecord} (hp : ps₁.Perm ps₂) :
    earlyRowFor ps₁ = earlyRowFor ps₂ := by
  funext t
  have hq : ((neutralQualifying ps₁).filter (fun p => decide (p.team = t))).Perm
      ((neutralQualifying ps₂).filter (fun p => decide (p.team = t))) :=
    (hp.filter _).filter _
  simp only [earlyRowFor]
  rw [hq.length_eq, hq.countP_eq _, leaguePassRate_perm hp]

theorem neutralEarlyDownPassRate_perm {ps₁ ps₂ : List PlayRecord}
    (hp : ps₁.Perm ps₂) :
    neutralEarlyDownPassRate ps₁ = neutralEarlyDownPassRate ps₂ := by
  have hq : (neutralQualifying ps₁).Perm (neutralQualifying ps₂) := hp.filter _
  rw [neutralEarlyDownPassRate, neutralEarlyDownPassRate,
    sortedDedup_perm_eq (hq.map PlayRecord.team), earlyRowFor_perm hp]

theorem teamList_perm {ps₁ ps₂ : List PlayRecord} (hp : ps₁.Perm ps₂) :
    teamList ps₁ = teamList ps₂ := by
  rw [teamList, teamList, teamDownTendencies_perm hp]

theorem runPipeline_perm {rows₁ rows₂ : List RawRow} (hp : rows₁.Perm rows₂) :
    runPipeline rows₁ = runPipeline rows₂ := by
  have hk : ((normalizeAll rows₁).1).Perm ((normalizeAll rows₂).1) :=
    hp.filterMap _
  have hc : (normalizeAll rows₁).2 = (normalizeAll rows₂).2 := hp.countP_eq _
  simp only [runPipeline]
  rw [teamDownTendencies_perm hk, fourthDownAggression_perm hk,
    neutralEarlyDownPassRate_perm hk, teamList_perm hk, hc]

theorem asciiUpperChar_idem (c : Char) :
    asciiUpperChar (asciiUpperChar c) = asciiUpperChar c := by
  by_cases h : 97 ≤ c.toNat ∧ c.toNat ≤ 122
  · have hc : asciiUpperChar c = Char.ofNat (c.toNat - 32) := by
      rw [asciiUpperChar, if_pos h]
    have hlt : c.toNat - 32 < 55296 := by omega
    have htn : (Char.ofNat (c.toNat - 32)).toNat = c.toNat - 32 := by
      unfold Char.ofNat
      rw [dif_pos (Or.inl hlt)]
      rfl
    rw [hc, asciiUpperChar, htn, if_neg (by omega)]
  · have hc : asciiUpperChar c = c := by
      rw [asciiUpperChar, if_neg h]
    rw [hc, hc]

theorem asciiUpper_idem (s : String) :
    asciiUpper (asciiUpper s) = asciiUpper s := by
  apply string_eq_of_data_eq
  show (s.data.map asciiUpperChar).map asciiUpperChar = s.data.map asciiUpperChar
  rw [List.map_map]
  exact List.map_congr_left (fun a _ => asciiUpperChar_idem a)

theorem fourthDownAggression_fixture :
    fourthDownAggression fixtureFourth =
    [⟨"AAA", 4, 3, 3 / 4, 1 / 2, 1 / 4⟩, ⟨"BBB", 2, 0, 0, 1 / 2, -(1 / 2)⟩] := by
  have t1 : (decide (("AAA" : String) = "AAA")) = true := by decide
  have t2 : (decide (("BBB" : String) = "AAA")) = false := by decide
  have t3 : (decide (("AAA" : String) = "BBB")) = false := by decide
  have t4 : (decide (("BBB" : String) = "BBB")) = true := by decide
  norm_num [fourthDownAggression, fourthQualifying, fixtureFourth, mkFourthPlay,
    fourthShortMidfield, sortedDedup, insortNodup, codeLt, charsLt,
    fourthRowFor, leagueGoRate, PlayRecord.isGoForIt, sortDescBy, insDescBy,
    List.filterMap, List.countP, List.countP.go, List.filter, t1, t2, t3, t4]

theorem leagueGoRate_fixture : leagueGoRate fixtureFourth = 1 / 2 := by
  norm_num [leagueGoRate, fourthQualifying, fixtureFourth, mkFourthPlay,
    fourthShortMidfield, PlayRecord.isGoForIt, List.countP, List.countP.go,
    List.filter]

theorem teamMeanGoRate_fixture : teamMeanGoRate fixtureFourth = 3 / 8 := by
  have t1 : (decide (("AAA" : String) = "AAA")) = true := by decide
  have t2 : (decide (("BBB" : String) = "AAA")) = false := by decide
  have t3 : (decide (("AAA" : String) = "BBB")) = false := by decide
  have t4 : (decide (("BBB" : String) = "BBB")) = true := by decide
  norm_num [teamMeanGoRate, fourthQualifying, fixtureFourth, mkFourthPlay,
    fourthShortMidfield, sortedDedup, insortNodup, codeLt, charsLt,
    PlayRecord.isGoForIt, List.filterMap, List.countP, List.countP.go,
    List.filter, t1, t2, t3, t4]

theorem teamDownTendencies_fixture :
    teamDownTendencies fixtureTend = [⟨"AAA", 1, 2 / 3, 1 / 3⟩] := by
  have t1 : (decide (("AAA" : String) = "AAA")) = true := by decide
  have p1 : (decide (PlayType.rush = PlayType.rush)) = true := by decide
  have p2 : (decide (PlayType.pass = PlayType.rush)) = false := by decide
  have p3 : (decide (PlayType.rush = PlayType.pass)) = false := by decide
  have p4 : (decide (PlayType.pass = PlayType.pass)) = true := by decide
  norm_num [p1, p2, p3, p4, teamDownTendencies, offensivePlays, fixtureTend, mkDownPlay,
    sortedDedup, insortNodup, codeLt, charsLt, tendencyFor, teamDownGroup,
    List.flatMap, List.filterMap, List.countP, List.countP.go, List.filter, t1]
  simp

theorem neutralEarlyDownPassRate_fixture :
    neutralEarlyDownPassRate fixtureTend = [⟨"AAA", 3, 1, 1 / 3, 1 / 3, 0⟩] := by
  have t1 : (decide (("AAA" : String) = "AAA")) = true := by decide
  have p2 : (decide (PlayType.pass = PlayType.rush)) = false := by decide
  have p3 : (decide (PlayType.rush = PlayType.pass)) = false := by decide
  have p4 : (decide (PlayType.pass = PlayType.pass)) = true := by decide
  norm_num [p2, p3, p4, neutralEarlyDownPassRate, neutralQualifying, fixtureTend, mkDownPlay,
    neutralEarlyDown, sortedDedup, insortNodup, codeLt, charsLt,
    earlyRowFor, leaguePassRate, isPassPlay, sortDescBy, insDescBy,
    List.filterMap, List.countP, List.countP.go, List.filter, t1]

/-- C5: the Situational Classifier is a pure Boolean tagging of each play:
`fourthShortMidfield` holds iff down = 4, yards-to-go lies in the closed
interval [1,3] and the field position is strictly between the two 20-yard
lines; `neutralEarlyDown` holds iff down is 1 or 2, yards-to-go lies in
[7,10], the field position is strictly between the 20s and the absolute
score differential is at most 7; a play exactly on either 20-yard line
qualifies for neither bucket. -/
theorem classifier_buckets (p : PlayRecord) :
    (fourthShortMidfield p = true ↔
      (p.down = 4 ∧ 1 ≤ p.ydsToGo ∧ p.ydsToGo ≤ 3 ∧
        20 < p.yardLine ∧ p.yardLine < 80))
  ∧ (neutralEarlyDown p = true ↔
      ((p.down = 1 ∨ p.down = 2) ∧ 7 ≤ p.ydsToGo ∧ p.ydsToGo ≤ 10 ∧
        20 < p.yardLine ∧ p.yardLine < 80 ∧ |p.scoreDiff| ≤ 7))
  ∧ ((p.yardLine = 20 ∨ p.yardLine = 80) →
      fourthShortMidfield p = false ∧ neutralEarlyDown p = false) := by
  have habs : |p.scoreDiff| ≤ 7 ↔ p.scoreDiff.natAbs ≤ 7 := by
    rw [Int.abs_eq_natAbs]
    omega
  refine ⟨?_, ?_, ?_⟩
  · rw [fourthShortMidfield, decide_eq_true_iff]
  · rw [neutralEarlyDown, decide_eq_true_iff, habs]
  · intro h
    constructor
    · rw [fourthShortMidfield, decide_eq_false_iff_not]
      rcases h with h | h <;> omega
    · rw [neutralEarlyDown, decide_eq_false_iff_not]
      rcases h with h | h <;> omega

theorem classifier_buckets_witness :
    fourthShortMidfield ⟨2024, "KC", 4, PlayType.rush, 2, 20, 0, false, false⟩ = false ∧
    neutralEarlyDown ⟨2024, "KC", 4, PlayType.rush, 2, 20, 0, false, false⟩ = false :=
  (classifier_buckets _).2.2 (Or.inl rfl)

/-- C7: the Play Record Normalizer is total — every raw row is either kept
as a valid record or dropped and counted; a row with a missing or
unrecognized team code, a missing or out-of-range down (such as down 5), or
an unclassifiable play type maps to the dropped-row signal, contributes
nothing to the kept stream feeding the aggregates, and increments the
dropped-row counter; every kept record satisfies the §3 invariants. -/
theorem normalizer_drops_invalid_rows :
    (∀ rows : List RawRow,
      (normalizeAll rows).1.length + (normalizeAll rows).2 = rows.length)
  ∧ (∀ r : RawRow,
      (r.posteam = none ∨ (∃ t, r.posteam = some t ∧ t ∉ knownTeams) ∨
       r.down = none ∨ (∃ d, r.down = some d ∧ ¬(1 ≤ d ∧ d ≤ 4)) ∨
       r.playTypeRaw = none ∨
       (∃ s, r.playTypeRaw = some s ∧ classifyPlayType s = none)) →
      normalizeRow r = none)
  ∧ (∀ (r : RawRow) (p : PlayRecord), normalizeRow r = some p →
      (1 ≤ p.down ∧ p.down ≤ 4) ∧ p.team ∈ knownTeams)
  ∧ (∀ (r : RawRow) (rows : List RawRow), normalizeRow r = none →
      (normalizeAll (r :: rows)).1 = (normalizeAll rows).1 ∧
      (normalizeAll (r :: rows)).2 = (normalizeAll rows).2 + 1) := by
  refine ⟨?_, ?_, ?_, ?_⟩
  · intro rows
    induction rows with
    | nil => rfl
    | cons r rows ih =>
      simp only [normalizeAll] at ih
      cases hnr : normalizeRow r with
      | none =>
        simp [normalizeAll, List.filterMap_cons, List.countP_cons, hnr]
        omega
      | some p =>
        simp [normalizeAll, List.filterMap_cons, List.countP_cons, hnr]
        omega
  · intro r h
    rcases hp : r.posteam with _ | t
    · simp [normalizeRow, hp]
    · by_cases htk : t ∈ knownTeams
      · rcases hdd : r.down with _ | d
        · simp [normalizeRow, hp, htk, hdd]
        · by_cases hdr : 1 ≤ d ∧ d ≤ 4
          · rcases hpt : r.playTypeRaw with _ | s
            · simp [normalizeRow, hp, htk, hdd, hdr, hpt]
            · have hcs : classifyPlayType s = none := by
                rcases h with h | ⟨t', ht', htk'⟩ | h | ⟨d', hd', hdr'⟩ | h | ⟨s', hs', hcs'⟩
                · rw [hp] at h
                  cases h
                · rw [hp] at ht'
                  injection ht' with he
                  subst he
                  exact absurd htk htk'
                · rw [hdd] at h
                  cases h
                · rw [hdd] at hd'
                  injection hd' with he
                  subst he
                  exact absurd hdr hdr'
                · rw [hpt] at h
                  cases h
                · rw [hpt] at hs'
                  injection hs' with he
                  subst he
                  exact hcs'
              simp [normalizeRow, hp, htk, hdd, hdr, hpt, hcs]
          · simp [normalizeRow, hp, htk, hdd, hdr]
      · simp [normalizeRow, hp, htk]
  · intro r p h
    rcases hp : r.posteam with _ | t
    · simp [normalizeRow, hp] at h
    · by_cases htk : t ∈ knownTeams
      · rcases hdd : r.down with _ | d
        · simp [normalizeRow, hp, htk, hdd] at h
        · by_cases hdr : 1 ≤ d ∧ d ≤ 4
          · rcases hpt : r.playTypeRaw with _ | s
            · simp [normalizeRow, hp, htk, hdd, hdr, hpt] at h
            · rcases hcs : classifyPlayType s with _ | pt
              · simp [normalizeRow, hp, htk, hdd, hdr, hpt, hcs] at h
              · simp only [normalizeRow, hp, hdd, hpt, hcs] at h
                rw [if_pos htk, if_pos hdr] at h
                injection h with h2
                subst h2
                exact ⟨hdr, htk⟩
          · simp [normalizeRow, hp, htk, hdd, hdr] at h
      · simp [normalizeRow, hp, htk] at h
  · intro r rows h
    constructor
    · simp [normalizeAll, List.filterMap_cons, h]
    · simp [normalizeAll, List.countP_cons, h]

theorem normalizer_drops_invalid_rows_witness :
    normalizeRow badDownRow = none ∧ normalizeRow badTeamRow = none ∧
    (normalizeAll [badDownRow, rawKC]).1.length +
      (normalizeAll [badDownRow, rawKC]).2 = 2 :=
  ⟨normalizer_drops_invalid_rows.2.1 badDownRow
      (Or.inr (Or.inr (Or.inr (Or.inl ⟨5, rfl, by decide⟩)))),
   normalizer_drops_invalid_rows.2.1 badTeamRow
      (Or.inr (Or.inl ⟨"ZZZ", rfl, by decide⟩)),
   normalizer_drops_invalid_rows.1 [badDownRow, rawKC]⟩

/-- C2: the 4th-down aggression export is sorted descending by
aggression index and the neutral early-down export descending by
pass-rate-over-average; in both, two rows with equal metric values appear
in ascending team-code order. -/
theorem exports_sorted_desc_with_team_ties (ps : List PlayRecord) :
    (fourthDownAggression ps).Pairwise
      (fun a b => b.aggression_index < a.aggression_index ∨
        (a.aggression_index = b.aggression_index ∧ codeLt a.team b.team = true))
  ∧ (neutralEarlyDownPassRate ps).Pairwise
      (fun a b => b.pass_rate_over_avg < a.pass_rate_over_avg ∨
        (a.pass_rate_over_avg = b.pass_rate_over_avg ∧ codeLt a.team b.team = true)) := by
  constructor
  · have hrows : ((sortedDedup ((fourthQualifying ps).map PlayRecord.team)).filterMap
        (fourthRowFor ps)).Pairwise (fun a b => codeLt a.team b.team = true) := by
      rw [List.pairwise_filterMap]
      refine (pairwise_sortedDedup _).imp ?_
      intro t₁ t₂ hlt r₁ hr₁ r₂ hr₂
      rw [(fourthRowFor_some (Option.mem_def.mp hr₁)).1,
        (fourthRowFor_some (Option.mem_def.mp hr₂)).1]
      exact hlt
    exact pairwise_sortDescBy hrows
  · have hrows : ((sortedDedup ((neutralQualifying ps).map PlayRecord.team)).filterMap
        (earlyRowFor ps)).Pairwise (fun a b => codeLt a.team b.team = true) := by
      rw [List.pairwise_filterMap]
      refine (pairwise_sortedDedup _).imp ?_
      intro t₁ t₂ hlt r₁ hr₁ r₂ hr₂
      rw [(earlyRowFor_some (Option.mem_def.mp hr₁)).1,
        (earlyRowFor_some (Option.mem_def.mp hr₂)).1]
      exact hlt
    exact pairwise_sortDescBy hrows

/-- C9: the team-list export is exactly the set of team codes having at
least one TeamDownTendency record, in ascending (strict, duplicate-free)
alphabetical order; in particular every team in the tendencies output
appears in the team list. -/
theorem teamList_matches_tendencies (ps : List PlayRecord) :
    (teamList ps).Pairwise (fun a b => codeLt a b = true)
  ∧ (∀ t : String, t ∈ teamList ps ↔
      ∃ row ∈ teamDownTendencies ps, row.team = t) := by
  refine ⟨pairwise_sortedDedup _, ?_⟩
  intro t
  rw [teamList, mem_sortedDedup, List.mem_map]

/-- C8: the pipeline is deterministic — it is a pure function of the
snapshot, so re-running it yields the identical artifact — and the
aggregation does not depend on the order of rows in the input: any
permutation of the snapshot produces the very same artifact (the output
ordering is fixed by the sort rules alone). -/
theorem pipeline_deterministic_and_order_independent :
    (∀ rows : List RawRow, runPipeline rows = runPipeline rows)
  ∧ (∀ rows₁ rows₂ : List RawRow, rows₁.Perm rows₂ →
      runPipeline rows₁ = runPipeline rows₂) :=
  ⟨fun _ => rfl, fun _ _ hp => runPipeline_perm hp⟩

theorem pipeline_deterministic_and_order_independent_witness :
    runPipeline [rawKC, rawGB] = runPipeline [rawGB, rawKC] :=
  pipeline_deterministic_and_order_independent.2 [rawKC, rawGB]
    [rawGB, rawKC] (List.Perm.swap rawGB rawKC [])

/-- C3: in every row of the 4th-down export, the aggression index is
exactly the team's go rate minus the league go rate (which may be
negative), and the league_go_rate field carries one and the same value —
the play-weighted league rate — in every row of a run. -/
theorem aggression_index_is_go_rate_minus_league (ps : List PlayRecord) :
    (∀ r ∈ fourthDownAggression ps,
      r.aggression_index = r.go_rate - r.league_go_rate)
  ∧ (∀ r ∈ fourthDownAggression ps, r.league_go_rate = leagueGoRate ps)
  ∧ (∀ r ∈ fourthDownAggression ps, ∀ r' ∈ fourthDownAggression ps,
      r.league_go_rate = r'.league_go_rate) := by
  have key : ∀ r ∈ fourthDownAggression ps,
      r.aggression_index = r.go_rate - r.league_go_rate ∧
      r.league_go_rate = leagueGoRate ps := by
    intro r hr
    rcases mem_fourthDownAggression.mp hr with ⟨t, _, hsome⟩
    rcases fourthRowFor_some hsome with ⟨_, _, _, _, _, h6, h7⟩
    exact ⟨h7, h6⟩
  exact ⟨fun r hr => (key r hr).1, fun r hr => (key r hr).2,
    fun r hr r' hr' => by rw [(key r hr).2, (key r' hr').2]⟩

theorem aggression_index_is_go_rate_minus_league_witness :
    (⟨"BBB", 2, 0, 0, 1 / 2, -(1 / 2)⟩ : FourthDownAggression).aggression_index =
      (⟨"BBB", 2, 0, 0, 1 / 2, -(1 / 2)⟩ : FourthDownAggression).go_rate -
      (⟨"BBB", 2, 0, 0, 1 / 2, -(1 / 2)⟩ : FourthDownAggression).league_go_rate :=
  (aggression_index_is_go_rate_minus_league fixtureFourth).1 _ (by
    rw [fourthDownAggression_fixture]
    exact List.mem_cons_of_mem _ (List.mem_cons_self _ _))

/-- C6: a team with zero qualifying plays in a bucket has no row in that
bucket's export; every emitted row comes from at least one qualifying play
and its denominator field is positive, so every exported rate is a genuine
ratio (no null and no NaN can arise — absence is the only representation of
missing teams). -/
theorem zero_play_teams_excluded (ps : List PlayRecord) :
    (∀ r ∈ fourthDownAggression ps, 0 < r.attempts ∧
      ∃ p ∈ ps, fourthShortMidfield p = true ∧ p.team = r.team)
  ∧ (∀ t : String, (∀ p ∈ ps, p.team = t → fourthShortMidfield p = false) →
      ∀ r ∈ fourthDownAggression ps, r.team ≠ t)
  ∧ (∀ r ∈ neutralEarlyDownPassRate ps, 0 < r.plays ∧
      ∃ p ∈ ps, neutralEarlyDown p = true ∧ p.team = r.team)
  ∧ (∀ t : String, (∀ p ∈ ps, p.team = t → neutralEarlyDown p = false) →
      ∀ r ∈ neutralEarlyDownPassRate ps, r.team ≠ t) := by
  have main4 : ∀ r ∈ fourthDownAggression ps, 0 < r.attempts ∧
      ∃ p ∈ ps, fourthShortMidfield p = true ∧ p.team = r.team := by
    intro r hr
    rcases mem_fourthDownAggression.mp hr with ⟨t, _, hsome⟩
    rcases fourthRowFor_some hsome with ⟨hteam, hatt, hpos, _, _, _, _⟩
    refine ⟨hpos, ?_⟩
    have hlen : 0 < ((fourthQualifying ps).filter
        (fun p => decide (p.team = t))).length := hatt ▸ hpos
    rcases List.exists_mem_of_ne_nil _ (List.length_pos.mp hlen) with ⟨p, hp⟩
    have hp' := List.mem_filter.mp hp
    have hpq := List.mem_filter.mp hp'.1
    refine ⟨p, hpq.1, hpq.2, ?_⟩
    rw [hteam]
    exact of_decide_eq_true hp'.2
  have main5 : ∀ r ∈ neutralEarlyDownPassRate ps, 0 < r.plays ∧
      ∃ p ∈ ps, neutralEarlyDown p = true ∧ p.team = r.team := by
    intro r hr
    rcases mem_neutralEarlyDownPassRate.mp hr with ⟨t, _, hsome⟩
    rcases earlyRowFor_some hsome with ⟨hteam, hatt, hpos, _, _, _, _⟩
    refine ⟨hpos, ?_⟩
    have hlen : 0 < ((neutralQualifying ps).filter
        (fun p => decide (p.team = t))).length := hatt ▸ hpos
    rcases List.exists_mem_of_ne_nil _ (List.length_pos.mp hlen) with ⟨p, hp⟩
    have hp' := List.mem_filter.mp hp
    have hpq := List.mem_filter.mp hp'.1
    refine ⟨p, hpq.1, hpq.2, ?_⟩
    rw [hteam]
    exact of_decide_eq_true hp'.2
  refine ⟨main4, ?_, main5, ?_⟩
  · intro t hnone r hr heq
    rcases (main4 r hr).2 with ⟨p, hpmem, hbucket, hteam⟩
    rw [heq] at hteam
    rw [hnone p hpmem hteam] at hbucket
    cases hbucket
  · intro t hnone r hr heq
    rcases (main5 r hr).2 with ⟨p, hpmem, hbucket, hteam⟩
    rw [heq] at hteam
    rw [hnone p hpmem hteam] at hbucket
    cases hbucket

theorem zero_play_teams_excluded_witness :
    0 < (⟨"AAA", 4, 3, 3 / 4, 1 / 2, 1 / 4⟩ : FourthDownAggression).attempts ∧
    ∃ p ∈ fixtureFourth, fourthShortMidfield p = true ∧
      p.team = (⟨"AAA", 4, 3, 3 / 4, 1 / 2, 1 / 4⟩ : FourthDownAggression).team :=
  (zero_play_teams_excluded fixtureFourth).1 _ (by
    rw [fourthDownAggression_fixture]
    exact List.mem_cons_self _ _)

/-- C4: every (team, down) row of the Team-Down Aggregator satisfies
rush_rate + pass_rate = 1 exactly (its group has at least one qualifying
rush/pass play), and a (team, down) pair with no qualifying offensive play
produces no row at all — it is omitted rather than emitted as 0/0. -/
theorem tendency_rates_sum_to_one (ps : List PlayRecord) :
    (∀ row ∈ teamDownTendencies ps, row.rush_rate + row.pass_rate = 1)
  ∧ (∀ (t : String) (d : Nat), teamDownGroup ps t d = [] →
      ∀ row ∈ teamDownTendencies ps, ¬(row.team = t ∧ row.down = d)) := by
  constructor
  · intro row hrow
    rcases mem_teamDownTendencies.mp hrow with ⟨t, _, d, _, hsome⟩
    rcases tendencyFor_some hsome with ⟨_, _, hpos, hrush, hpass⟩
    have hall : ∀ p ∈ teamDownGroup ps t d,
        p.ptype = PlayType.rush ∨ p.ptype = PlayType.pass := by
      intro p hp
      have hoff := (List.mem_filter.mp hp).1
      exact of_decide_eq_true (List.mem_filter.mp hoff).2
    have hsum := countP_rush_add_countP_pass hall
    have hne : ((teamDownGroup ps t d).length : ℚ) ≠ 0 := by
      rw [Nat.cast_ne_zero]
      omega
    have hcast : (((teamDownGroup ps t d).countP
          (fun p => decide (p.ptype = PlayType.rush)) : ℚ) +
        ((teamDownGroup ps t d).countP
          (fun p => decide (p.ptype = PlayType.pass)) : ℚ)) =
        ((teamDownGroup ps t d).length : ℚ) := by
      exact_mod_cast congrArg (Nat.cast : Nat → ℚ) hsum
    rw [hrush, hpass, div_add_div_same, hcast, div_self hne]
  · intro t d hempty row hrow hand
    rcases hand with ⟨hteam, hdown⟩
    rcases mem_teamDownTendencies.mp hrow with ⟨t', _, d', _, hsome⟩
    rcases tendencyFor_some hsome with ⟨ht', hd', hpos, _, _⟩
    have ht2 : t' = t := ht'.symm.trans hteam
    have hd2 : d' = d := hd'.symm.trans hdown
    subst ht2
    subst hd2
    rw [hempty] at hpos
    simp at hpos

theorem tendency_rates_sum_to_one_witness :
    (⟨"AAA", 1, 2 / 3, 1 / 3⟩ : TeamDownTendency).rush_rate +
      (⟨"AAA", 1, 2 / 3, 1 / 3⟩ : TeamDownTendency).pass_rate = 1 :=
  (tendency_rates_sum_to_one fixtureTend).1 _ (by
    rw [teamDownTendencies_fixture]
    exact List.mem_cons_self _ _)

/-- C1: in both league exports the league-wide rate is play-weighted: every
row's league_go_rate equals the sum of go_for_it counts over all teams
divided by the sum of attempts over all teams, and every row's
league_pass_rate equals total pass plays over total qualifying plays —
whenever the export is nonempty (at least one qualifying play).  On the
spec §8 fixture the play-weighted rate is 3/6 = 1/2, which differs from the
unweighted mean of the per-team rates, 3/8. -/
theorem league_rates_play_weighted :
    (∀ ps : List PlayRecord, ∀ r ∈ fourthDownAggression ps,
      r.league_go_rate =
        ((((sortedDedup ((fourthQualifying ps).map PlayRecord.team)).map
          (fun t => ((fourthQualifying ps).filter
            (fun p => decide (p.team = t))).countP PlayRecord.isGoForIt)).sum : ℚ)) /
        ((((sortedDedup ((fourthQualifying ps).map PlayRecord.team)).map
          (fun t => ((fourthQualifying ps).filter
            (fun p => decide (p.team = t))).length)).sum : ℚ)))
  ∧ (∀ ps : List PlayRecord, ∀ r ∈ neutralEarlyDownPassRate ps,
      r.league_pass_rate =
        ((((sortedDedup ((neutralQualifying ps).map PlayRecord.team)).map
          (fun t => ((neutralQualifying ps).filter
            (fun p => decide (p.team = t))).countP isPassPlay)).sum : ℚ)) /
        ((((sortedDedup ((neutralQualifying ps).map PlayRecord.team)).map
          (fun t => ((neutralQualifying ps).filter
            (fun p => decide (p.team = t))).length)).sum : ℚ)))
  ∧ leagueGoRate fixtureFourth = 1 / 2
  ∧ teamMeanGoRate fixtureFourth = 3 / 8 := by
  refine ⟨?_, ?_, leagueGoRate_fixture, teamMeanGoRate_fixture⟩
  · intro ps r hr
    rcases mem_fourthDownAggression.mp hr with ⟨t, _, hsome⟩
    rw [(fourthRowFor_some hsome).2.2.2.2.2.1, leagueGoRate]
    have hnd := sortedDedup_nodup ((fourthQualifying ps).map PlayRecord.team)
    have hcov : ∀ p ∈ fourthQualifying ps,
        p.team ∈ sortedDedup ((fourthQualifying ps).map PlayRecord.team) :=
      fun p hp => mem_sortedDedup.mpr (List.mem_map_of_mem PlayRecord.team hp)
    have hn := sum_countP_partition PlayRecord.isGoForIt
      (fourthQualifying ps) hnd hcov
    have hd : ((sortedDedup ((fourthQualifying ps).map PlayRecord.team)).map
        (fun t' => ((fourthQualifying ps).filter
          (fun p => decide (p.team = t'))).length)).sum =
        (fourthQualifying ps).length := by
      calc ((sortedDedup ((fourthQualifying ps).map PlayRecord.team)).map
            (fun t' => ((fourthQualifying ps).filter
              (fun p => decide (p.team = t'))).length)).sum
          = ((sortedDedup ((fourthQualifying ps).map PlayRecord.team)).map
            (fun t' => ((fourthQualifying ps).filter
              (fun p => decide (p.team = t'))).countP (fun _ => true))).sum := by
            rw [List.countP_true]
        _ = (fourthQualifying ps).countP (fun _ => true) :=
            sum_countP_partition _ (fourthQualifying ps) hnd hcov
        _ = (fourthQualifying ps).length := by
            rw [List.countP_true]
    rw [hn, hd]
  · intro ps r hr
    rcases mem_neutralEarlyDownPassRate.mp hr with ⟨t, _, hsome⟩
    rw [(earlyRowFor_some hsome).2.2.2.2.2.1, leaguePassRate]
    have hnd := sortedDedup_nodup ((neutralQualifying ps).map PlayRecord.team)
    have hcov : ∀ p ∈ neutralQualifying ps,
        p.team ∈ sortedDedup ((neutralQualifying ps).map PlayRecord.team) :=
      fun p hp => mem_sortedDedup.mpr (List.mem_map_of_mem PlayRecord.team hp)
    have hn := sum_countP_partition isPassPlay (neutralQualifying ps) hnd hcov
    have hd : ((sortedDedup ((neutralQualifying ps).map PlayRecord.team)).map
        (fun t' => ((neutralQualifying ps).filter
          (fun p => decide (p.team = t'))).length)).sum =
        (neutralQualifying ps).length := by
      calc ((sortedDedup ((neutralQualifying ps).map PlayRecord.team)).map
            (fun t' => ((neutralQualifying ps).filter
              (fun p => decide (p.team = t'))).length)).sum
          = ((sortedDedup ((neutralQualifying ps).map PlayRecord.team)).map
            (fun t' => ((neutralQualifying ps).filter
              (fun p => decide (p.team = t'))).countP (fun _ => true))).sum := by
            rw [List.countP_true]
        _ = (neutralQualifying ps).countP (fun _ => true) :=
            sum_countP_partition _ (neutralQualifying ps) hnd hcov
        _ = (neutralQualifying ps).length := by
            rw [List.countP_true]
    rw [hn, hd]

theorem league_rates_play_weighted_witness :
    (⟨"AAA", 4, 3, 3 / 4, 1 / 2, 1 / 4⟩ : FourthDownAggression).league_go_rate =
      ((((sortedDedup ((fourthQualifying fixtureFourth).map PlayRecord.team)).map
        (fun t => ((fourthQualifying fixtureFourth).filter
          (fun p => decide (p.team = t))).countP PlayRecord.isGoForIt)).sum : ℚ)) /
      ((((sortedDedup ((fourthQualifying fixtureFourth).map PlayRecord.team)).map
        (fun t => ((fourthQualifying fixtureFourth).filter
          (fun p => decide (p.team = t))).length)).sum : ℚ)) :=
  league_rates_play_weighted.1 fixtureFourth _ (by
    rw [fourthDownAggression_fixture]
    exact List.mem_cons_self _ _)

/-- C10: the team detail page normalizes the team route parameter to its
uppercase form (the empty string when the parameter is absent) before any
lookup; when the normalized code is empty, neither the metric effect nor
the summary effect issues any request; and a lowercase or mixed-case code
in the URL normalizes to the same code as the canonical uppercase form, so
both resolve to the same team. -/
theorem team_param_normalized_uppercase :
    (teamCode none = "")
  ∧ (∀ s : String, teamCode (some s) = asciiUpper s)
  ∧ (∀ param : Option String, teamCode param = "" →
      metricRequests param = [] ∧ summaryRequests param = [])
  ∧ (∀ s : String, teamCode (some s) = teamCode (some (asciiUpper s))) := by
  refine ⟨rfl, fun s => rfl, ?_, ?_⟩
  · intro param h
    rw [metricRequests, if_pos h, summaryRequests, if_pos h]
    exact ⟨rfl, rfl⟩
  · intro s
    show asciiUpper s = asciiUpper (asciiUpper s)
    exact (asciiUpper_idem s).symm

theorem team_param_normalized_uppercase_witness :
    teamCode (some "kc") = asciiUpper "kc" ∧
    metricRequests none = [] ∧ summaryRequests none = [] ∧
    teamCode (some "kc") = teamCode (some (asciiUpper "kc")) :=
  ⟨team_param_normalized_uppercase.2.1 "kc",
   (team_param_normalized_uppercase.2.2.1 none rfl).1,
   (team_param_normalized_uppercase.2.2.1 none rfl).2,
   team_param_normalized_uppercase.2.2.2 "kc"⟩

theorem exports_sorted_desc_with_team_ties_witness :
    (fourthDownAggression fixtureFourth).Pairwise
      (fun a b => b.aggression_index < a.aggression_index ∨
        (a.aggression_index = b.aggression_index ∧ codeLt a.team b.team = true))
  ∧ (neutralEarlyDownPassRate fixtureFourth).Pairwise
      (fun a b => b.pass_rate_over_avg < a.pass_rate_over_avg ∨
        (a.pass_rate_over_avg = b.pass_rate_over_avg ∧ codeLt a.team b.team = true)) :=
  exports_sorted_desc_with_team_ties fixtureFourth

theorem teamList_matches_tendencies_witness :
    "AAA" ∈ teamList fixtureTend ↔
      ∃ row ∈ teamDownTendencies fixtureTend, row.team = "AAA" :=
  (teamList_matches_tendencies fixtureTend).2 "AAA"
